import Mathlib

/-!
Verification of the grr_colab VFS module (src/grr_colab/vfs.py).

The module has two cores:
* VfsFile - a buffered, seekable, read-only stream over a chunked remote
  byte source.  The Python object stores the fetch callback in the field
  `_fetch`; the callback is immutable after construction, so here it is
  passed explicitly to the operations that use it (`init`, `seek`).
  The remaining mutable fields are embedded one-for-one.
* VFS.ls - a depth-bounded recursive directory walker over a provider.

A chunked byte source (the value of `fetch(offset)` in Python, an
iterator of byte chunks) is embedded as a `List (List Nat)`: the list of
chunks the iterator will yield; `next()` takes the head, and
StopIteration corresponds to the empty list.  Bytes are `Nat`.

Two ghost counters are threaded through the stream state, changing no
behaviour, to express the call-counting properties of the specification:
`fetchCalls` counts invocations of the fetch callback (`fetch(...)` at
lines 37 and 107 of vfs.py) and `pulls` counts `next()` attempts on the
active source (line 53).
-/

deriving instance DecidableEq for Except

/-- Clamping of one Python slice endpoint for a list of length `n`:
a negative index counts from the end, and indices are clamped to `[0, n]`. -/
def pySliceIdx (n : Nat) (i : Int) : Nat :=
  if i < 0 then (max 0 ((n : Int) + i)).toNat else (min i (n : Int)).toNat

/-- Python slice `l[i:j]`. -/
def pySlice (l : List Nat) (i j : Int) : List Nat :=
  (l.take (pySliceIdx l.length j)).drop (pySliceIdx l.length i)

/-- Errors surfaced by stream operations: `closed` models the
ValueError raised by `_ensure_not_closed` (the ClosedError of the spec),
`unsupported` models `io.UnsupportedOperation`. -/
inductive VfsErr where
  | closed
  | unsupported
  deriving DecidableEq, Repr

/-- State of a `VfsFile` (vfs.py lines 35-43).  `data` is the state of the
active chunk iterator `_data`; `fetchCalls` and `pulls` are ghost counters. -/
structure VfsFile where
  data : List (List Nat)
  buffer : List Nat
  buffer_pos : Int
  pos : Int
  eof : Bool
  closed : Bool
  fetchCalls : Nat
  pulls : Nat
  deriving DecidableEq, Repr

/-- `VfsFile.__init__` (lines 35-43): note the eager `self._data = fetch(0)`. -/
def VfsFile.init (fetch : Int → List (List Nat)) : VfsFile :=
  { data := fetch 0, buffer := [], buffer_pos := 0, pos := 0,
    eof := false, closed := false, fetchCalls := 1, pulls := 0 }

/-- `_is_buffer_empty` (lines 59-60). -/
def VfsFile.isBufferEmpty (s : VfsFile) : Bool :=
  s.buffer_pos == (s.buffer.length : Int)

/-- `_load_buffer` (lines 49-57): one `next()` attempt on the source when
not at EOF; StopIteration sets `eof` and clears the buffer. -/
def VfsFile.loadBuffer (s : VfsFile) : VfsFile :=
  if s.eof then s
  else
    match s.data with
    | [] =>
      { s with
          eof := true
          buffer := []
          buffer_pos := 0
          pulls := s.pulls + 1 }
    | c :: rest =>
      { s with
          data := rest
          buffer := c
          buffer_pos := 0
          pulls := s.pulls + 1 }

/-- `_read_from_buffer` (lines 62-70). -/
def VfsFile.readFromBuffer (size : Int) (s : VfsFile) : List Nat × VfsFile :=
  let s1 := if s.isBufferEmpty then s.loadBuffer else s
  let available : Int := (s1.buffer.length : Int) - s1.buffer_pos
  let size1 := min size available
  let size2 := if size1 < 0 then available else size1
  let bp := s1.buffer_pos + size2
  (pySlice s1.buffer (bp - size2) bp,
   { s1 with buffer_pos := bp, pos := s1.pos + size2 })

/-- `closed` property (lines 72-74) -- direct field access in this model. -/
def VfsFile.close (s : VfsFile) : VfsFile :=
  { s with closed := true }

/-- `tell` (lines 115-117): note that it checks `_ensure_not_closed` first. -/
def VfsFile.tell (s : VfsFile) : Except VfsErr Int :=
  if s.closed then .error .closed else .ok s.pos

/-- `seek` (lines 91-113).  `whence` is the Python integer constant:
`io.SEEK_SET = 0`, `io.SEEK_CUR = 1`; anything else is unsupported. -/
def VfsFile.seek (fetch : Int → List (List Nat)) (offset whence : Int)
    (s : VfsFile) : Except VfsErr (Int × VfsFile) :=
  if s.closed then .error .closed
  else
    if whence = 0 ∨ whence = 1 then
      let new_pos : Int := if whence = 0 then offset else s.pos + offset
      let buffer_start_pos := s.pos - s.buffer_pos
      if buffer_start_pos ≤ new_pos ∧
          new_pos ≤ buffer_start_pos + (s.buffer.length : Int) then
        .ok (new_pos,
          { s with
              buffer_pos := s.buffer_pos + (new_pos - s.pos)
              pos := new_pos
              eof := false })
      else
        .ok (new_pos,
          { s with
              data := fetch new_pos
              pos := new_pos
              buffer := []
              buffer_pos := 0
              eof := false
              fetchCalls := s.fetchCalls + 1 })
    else .error .unsupported

/-- Termination measure for the read loop: remaining chunks, then the EOF
flag, then the distance of the cursor from the end of the buffer. -/
def VfsFile.meas (s : VfsFile) : Nat × Nat × Nat :=
  (s.data.length, (if s.eof then 0 else 1),
   ((s.buffer.length : Int) - s.buffer_pos).natAbs)

/-- One pass of `_read_from_buffer` with a nonzero request strictly decreases
the loop measure (lexicographically), for every state that is not at EOF. -/
theorem VfsFile.rfb_dec (a : Int) (s : VfsFile) (heof : s.eof = false)
    (ha : a < 0 ∨ 1 ≤ a) :
    (s.readFromBuffer a).2.data.length < s.data.length ∨
    ((s.readFromBuffer a).2.data.length = s.data.length ∧
      (((if (s.readFromBuffer a).2.eof then 0 else 1) : Nat) <
          (if s.eof then 0 else 1) ∨
       (((if (s.readFromBuffer a).2.eof then 0 else 1) : Nat) =
          (if s.eof then 0 else 1) ∧
        (((s.readFromBuffer a).2.buffer.length : Int) -
            (s.readFromBuffer a).2.buffer_pos).natAbs <
          ((s.buffer.length : Int) - s.buffer_pos).natAbs))) := by
  obtain ⟨dat, buf, bp, pos, eof, cl, fc, pl⟩ := s
  simp only at heof
  subst heof
  by_cases hbe : (bp == (buf.length : Int)) = true
  · cases dat with
    | nil =>
      simp [VfsFile.readFromBuffer, VfsFile.loadBuffer, VfsFile.isBufferEmpty,
        hbe]
    | cons c rest =>
      simp [VfsFile.readFromBuffer, VfsFile.loadBuffer, VfsFile.isBufferEmpty,
        hbe]
  · have hne : bp ≠ (buf.length : Int) := by simpa using hbe
    simp [VfsFile.readFromBuffer, VfsFile.isBufferEmpty, hbe]
    split
    · omega
    · omega

/-- The `while` loop of `read` (lines 140-142), with `acc` for the local
`data` accumulator. -/
def VfsFile.readLoop (size : Int) (acc : List Nat) (s : VfsFile) :
    List Nat × VfsFile :=
  if h : s.eof = false ∧ (size < 0 ∨ (acc.length : Int) < size) then
    let r := s.readFromBuffer (size - (acc.length : Int))
    VfsFile.readLoop size (acc ++ r.1) r.2
  else (acc, s)
termination_by (s.data.length, (if s.eof then 0 else 1),
  ((s.buffer.length : Int) - s.buffer_pos).natAbs)
decreasing_by
  have hd := VfsFile.rfb_dec (size - (acc.length : Int)) s h.1 (by omega)
  rcases hd with h1 | ⟨h1, h2 | ⟨h2, h3⟩⟩
  · exact Prod.Lex.left _ _ h1
  · rw [h1]; exact Prod.Lex.right _ (Prod.Lex.left _ _ h2)
  · rw [h1]; exact Prod.Lex.right _ (h2 ▸ Prod.Lex.right _ h3)

/-- `read` (lines 137-143): note `size = size or -1`, which maps `0` to `-1`. -/
def VfsFile.read (size : Int) (s : VfsFile) :
    Except VfsErr (List Nat × VfsFile) :=
  if s.closed then .error .closed
  else
    let size1 := if size = 0 then -1 else size
    .ok (VfsFile.readLoop size1 [] s)

/-- `read1` (lines 145-151): the readChunk operation of the spec. -/
def VfsFile.read1 (size : Int) (s : VfsFile) :
    Except VfsErr (List Nat × VfsFile) :=
  if s.closed then .error .closed
  else
    let has_data := s.isBufferEmpty = false
    let r := s.readFromBuffer size
    if has_data ∧ (size < 0 ∨ (r.1.length : Int) < size) then
      let r2 := r.2.readFromBuffer (size - (r.1.length : Int))
      .ok (r.1 ++ r2.1, r2.2)
    else .ok (r.1, r.2)

/-- `readinto1` (lines 153-157): Python `b[:len(data)] = data` replaces the
first `len(data)` elements of `b`, giving `data ++ b.drop data.length`. -/
def VfsFile.readinto1 (b : List Nat) (s : VfsFile) :
    Except VfsErr (Nat × List Nat × VfsFile) :=
  if s.closed then .error .closed
  else
    match s.read1 (b.length : Int) with
    | .ok (d, s1) => .ok (d.length, d ++ b.drop d.length, s1)
    | .error e => .error e

/-!
The directory walker `VFS.ls` (vfs.py lines 169-203).

The external collaborators are embedded as two provider functions:
* `get` models `self._get_file(path).Get()` (including the `fs/os` path
  prefixing of `_get_file`, which is a pure renaming absorbed into the
  provider), returning the resolved entry or an access-denied failure;
* `listF` models `[_.data.stat for _ in f.ListFiles()]` for the file
  object resolved at a path, returning the ordered child stat entries or
  an access-denied failure.
-/

/-- The only provider failure the walker handles:
`api_errors.AccessForbiddenError`. -/
inductive ApiErr where
  | accessForbidden
  deriving DecidableEq, Repr

/-- Resolved entry metadata: the `is_directory` flag used at line 189. -/
structure FileEntry where
  is_directory : Bool
  deriving DecidableEq, Repr

/-- A stat entry; the walker only ever reads `entry.pathspec.path`
(line 200), so the opaque stat payload is represented by that path. -/
structure StatEntry where
  pathspecPath : String
  deriving DecidableEq, Repr

/-- Failures of `ls`: `errors.ApprovalMissingError` (payload elided) and
`errors.NotDirectoryError` (carrying the offending path). -/
inductive LsErr where
  | approvalMissing
  | notDirectory (path : String)
  deriving DecidableEq, Repr

/-- The `for entry in stat_entries` loop of `ls` (lines 197-202):
`f` is the recursive call at one smaller depth; a NotDirectoryError from
it is swallowed (`inner_entries += []`), anything else propagates. -/
def lsLoop (f : StatEntry → Except LsErr (List StatEntry)) :
    List StatEntry → Except LsErr (List StatEntry)
  | [] => .ok []
  | e :: rest =>
    match f e with
    | .ok xs =>
      match lsLoop f rest with
      | .ok ys => .ok (xs ++ ys)
      | .error err => .error err
    | .error (.notDirectory _) => lsLoop f rest
    | .error .approvalMissing => .error .approvalMissing

/-- `VFS.ls` at a non-negative recursion budget: budget `0` corresponds to
`max_depth < 1` (line 181). -/
def lsAux (get : String → Except ApiErr FileEntry)
    (listF : String → Except ApiErr (List StatEntry)) :
    Nat → String → Except LsErr (List StatEntry)
  | 0, _ => .ok []
  | d + 1, path =>
    match get path with
    | .error .accessForbidden => .error .approvalMissing
    | .ok f =>
      if f.is_directory = false then .error (.notDirectory path)
      else
        match listF path with
        | .error .accessForbidden => .error .approvalMissing
        | .ok stat_entries =>
          match lsLoop (fun e => lsAux get listF d e.pathspecPath)
              stat_entries with
          | .ok inner_entries => .ok (stat_entries ++ inner_entries)
          | .error err => .error err

/-- `VFS.ls` (lines 169-203): an `Int` depth below 1 yields `[]`. -/
def ls (get : String → Except ApiErr FileEntry)
    (listF : String → Except ApiErr (List StatEntry))
    (path : String) (max_depth : Int) : Except LsErr (List StatEntry) :=
  lsAux get listF max_depth.toNat path

/-!
Semantic layer for the stream: the bytes still ahead of the cursor, the
state invariant, and a natural-number potential used for induction on the
read loop.
-/

/-- The bytes the stream will deliver from the current position onward:
the unread tail of the buffer followed by the chunks not yet pulled. -/
def VfsFile.avail (s : VfsFile) : List Nat :=
  (s.buffer.drop s.buffer_pos.toNat) ++ s.data.flatten

/-- State invariant: the cursor lies inside the buffer, and once `eof` is
set the buffer is exhausted and the source is empty.  Established by
`init` and preserved by every operation. -/
def VfsFile.Inv (s : VfsFile) : Prop :=
  0 ≤ s.buffer_pos ∧ s.buffer_pos ≤ (s.buffer.length : Int) ∧
    (s.eof = true → s.buffer_pos = (s.buffer.length : Int) ∧ s.data = [])

/-- Potential of a state: strictly decreases along the read loop. -/
def VfsFile.measN (s : VfsFile) : Nat :=
  s.avail.length + s.data.length + (if s.eof then 0 else 1)

theorem pySlice_eq (l : List Nat) (i j : Int) (h0 : 0 ≤ i) (hij : i ≤ j)
    (hj : j ≤ (l.length : Int)) :
    pySlice l i j = (l.drop i.toNat).take (j.toNat - i.toNat) := by
  unfold pySlice pySliceIdx
  rw [if_neg (by omega), if_neg (by omega)]
  have h1 : (min j ((l.length : Nat) : Int)).toNat = j.toNat := by omega
  have h2 : (min i ((l.length : Nat) : Int)).toNat = i.toNat := by omega
  rw [h1, h2, List.drop_take]

/-- The number of bytes `_read_from_buffer` consumes, as a natural number,
together with its bounds: at most the available bytes, at most the request
when the request is non-negative, and at least one when the request is
nonzero and a byte is available. -/
theorem rfb_size_exists (a av : Int) (hav : 0 ≤ av) :
    ∃ k : Nat, ((k : Int) = if min a av < 0 then av else min a av) ∧
      (k : Int) ≤ av ∧ (0 ≤ a → (k : Int) ≤ a) ∧
      ((a < 0 ∨ 1 ≤ a) → 1 ≤ av → 1 ≤ k) := by
  refine ⟨(if min a av < 0 then av else min a av).toNat, ?_, ?_, ?_, ?_⟩ <;>
    · split <;> omega

/-- The byte count consumed by `_read_from_buffer` from the (possibly
just refilled) buffer state `t`: `min(size, available)`, replaced by
`available` when negative. -/
def rfbSize (a : Int) (t : VfsFile) : Int :=
  if min a ((t.buffer.length : Int) - t.buffer_pos) < 0
  then (t.buffer.length : Int) - t.buffer_pos
  else min a ((t.buffer.length : Int) - t.buffer_pos)

theorem rfb_unfold (a : Int) (s : VfsFile) :
    s.readFromBuffer a =
      (pySlice (if s.isBufferEmpty then s.loadBuffer else s).buffer
        ((if s.isBufferEmpty then s.loadBuffer else s).buffer_pos +
          rfbSize a (if s.isBufferEmpty then s.loadBuffer else s) -
          rfbSize a (if s.isBufferEmpty then s.loadBuffer else s))
        ((if s.isBufferEmpty then s.loadBuffer else s).buffer_pos +
          rfbSize a (if s.isBufferEmpty then s.loadBuffer else s)),
       { (if s.isBufferEmpty then s.loadBuffer else s) with
           buffer_pos :=
             (if s.isBufferEmpty then s.loadBuffer else s).buffer_pos +
               rfbSize a (if s.isBufferEmpty then s.loadBuffer else s)
           pos := (if s.isBufferEmpty then s.loadBuffer else s).pos +
             rfbSize a (if s.isBufferEmpty then s.loadBuffer else s) }) := rfl

/-- Specification of the consume step of `_read_from_buffer`, for any
state whose cursor is inside the buffer: the bytes handed out are a
prefix of `avail`, and the rest of `avail` remains. -/
theorem consume_spec (a : Int) (t : VfsFile) (h0 : 0 ≤ t.buffer_pos)
    (h1 : t.buffer_pos ≤ (t.buffer.length : Int)) :
    ∃ k : Nat, (k : Int) = rfbSize a t ∧
      pySlice t.buffer (t.buffer_pos + rfbSize a t - rfbSize a t)
          (t.buffer_pos + rfbSize a t) = t.avail.take k ∧
      (t.avail.take k).length = k ∧
      ({ t with buffer_pos := t.buffer_pos + rfbSize a t, pos := t.pos + rfbSize a t } : VfsFile).avail = t.avail.drop k ∧
      (k : Int) ≤ (t.buffer.length : Int) - t.buffer_pos ∧
      (0 ≤ a → (k : Int) ≤ a) ∧
      ((a < 0 ∨ 1 ≤ a) → t.buffer_pos < (t.buffer.length : Int) → 1 ≤ k) := by
  obtain ⟨k, hk, hka, hkb, hkc⟩ :=
    rfb_size_exists a ((t.buffer.length : Int) - t.buffer_pos) (by omega)
  have hk' : (k : Int) = rfbSize a t := hk
  have hdlen : (k : Nat) ≤ (t.buffer.drop t.buffer_pos.toNat).length := by
    rw [List.length_drop]; omega
  have havlen : (k : Nat) ≤ t.avail.length := by
    unfold VfsFile.avail
    rw [List.length_append, List.length_drop]; omega
  refine ⟨k, hk', ?_, ?_, ?_, ?_, ?_, ?_⟩
  · rw [← hk']
    have he : t.buffer_pos + (k : Int) - (k : Int) = t.buffer_pos := by ring
    rw [he, pySlice_eq t.buffer t.buffer_pos (t.buffer_pos + (k : Int)) h0
      (by omega) (by omega)]
    have he2 : (t.buffer_pos + (k : Int)).toNat - t.buffer_pos.toNat = k := by
      omega
    rw [he2]
    unfold VfsFile.avail
    rw [List.take_append_of_le_length hdlen]
  · rw [List.length_take]; omega
  · rw [← hk']
    unfold VfsFile.avail
    simp only
    rw [List.drop_append_of_le_length hdlen, List.drop_drop]
    have he3 : (t.buffer_pos + (k : Int)).toNat = t.buffer_pos.toNat + k := by
      omega
    rw [he3]
  · omega
  · exact hkb
  · intro hya hyb; exact hkc hya (by omega)

/-- Specification of `_load_buffer` when invoked on an empty buffer:
`avail` is preserved, the potential does not increase, and drops by at
least one when not at EOF. -/
theorem load_spec (s : VfsFile) (hInv : s.Inv) (hbe : s.isBufferEmpty = true) :
    s.loadBuffer.Inv ∧ s.loadBuffer.avail = s.avail ∧
      s.loadBuffer.pos = s.pos ∧ s.loadBuffer.closed = s.closed ∧
      s.loadBuffer.fetchCalls = s.fetchCalls ∧
      (s.eof = false → s.loadBuffer.measN + 1 ≤ s.measN) ∧
      (s.eof = true → s.loadBuffer = s) := by
  obtain ⟨dat, buf, bp, pos, eof, cl, fc, pl⟩ := s
  obtain ⟨hInv0, hInv1, hInv2⟩ := hInv
  simp only [VfsFile.isBufferEmpty, beq_iff_eq] at hbe
  simp only at hInv0 hInv1 hInv2 hbe
  cases eof with
  | true =>
    obtain ⟨hb, hd⟩ := hInv2 rfl
    subst hd
    simp [VfsFile.loadBuffer, VfsFile.Inv, VfsFile.avail, VfsFile.measN, hb]
  | false =>
    cases dat with
    | nil =>
      simp [VfsFile.loadBuffer, VfsFile.Inv, VfsFile.avail, VfsFile.measN, hbe]
    | cons c rest =>
      simp [VfsFile.loadBuffer, VfsFile.Inv, VfsFile.avail, VfsFile.measN, hbe]
      omega

theorem measN_drop_le (t u : VfsFile) (k : Nat) (hav : u.avail = t.avail.drop k)
    (hd : u.data = t.data) (he : u.eof = t.eof) : u.measN ≤ t.measN := by
  unfold VfsFile.measN
  rw [hav, hd, he, List.length_drop]
  omega

theorem measN_drop_lt (t u : VfsFile) (k : Nat) (hav : u.avail = t.avail.drop k)
    (hd : u.data = t.data) (he : u.eof = t.eof) (hk1 : 1 ≤ k)
    (hkle : k ≤ t.avail.length) : u.measN < t.measN := by
  unfold VfsFile.measN
  rw [hav, hd, he, List.length_drop]
  generalize (if t.eof = true then (0 : Nat) else 1) = b
  omega

/-- Full specification of `_read_from_buffer`: it hands out a prefix of
`avail`, leaves the rest, preserves the invariant, advances `pos` by the
number of bytes handed out, respects a non-negative request as an upper
bound, and strictly decreases the potential when not at EOF and the
request is nonzero. -/
theorem VfsFile.rfb_spec (a : Int) (s : VfsFile) (hInv : s.Inv) :
    ∃ k : Nat,
      (s.readFromBuffer a).1 = s.avail.take k ∧
      (s.readFromBuffer a).1.length = k ∧
      (s.readFromBuffer a).2.avail = s.avail.drop k ∧
      (s.readFromBuffer a).2.Inv ∧
      (s.readFromBuffer a).2.pos = s.pos + k ∧
      (s.readFromBuffer a).2.closed = s.closed ∧
      (s.readFromBuffer a).2.fetchCalls = s.fetchCalls ∧
      (0 ≤ a → (k : Int) ≤ a) ∧
      (s.eof = false → (a < 0 ∨ 1 ≤ a) →
        (s.readFromBuffer a).2.measN < s.measN) := by
  have hrw := rfb_unfold a s
  by_cases hbe : s.isBufferEmpty = true
  · rw [if_pos hbe] at hrw
    obtain ⟨hLInv, hLav, hLpos, hLcl, hLfc, hLm, hLid⟩ := load_spec s hInv hbe
    obtain ⟨k, hk, hsl, hlen, hav, hkav, hkle, hk1⟩ :=
      consume_spec a s.loadBuffer hLInv.1 hLInv.2.1
    refine ⟨k, ?_, ?_, ?_, ?_, ?_, ?_, ?_, hkle, ?_⟩
    · rw [hrw]; rw [hsl, hLav]
    · rw [hrw, hsl]; exact hlen
    · rw [hrw]; dsimp only; rw [← hLav]; exact hav
    · rw [hrw]; dsimp only
      refine ⟨?_, ?_, ?_⟩
      · have := hLInv.1; dsimp only; rw [← hk]; omega
      · dsimp only; rw [← hk]; omega
      · intro he
        dsimp only at he
        obtain ⟨hb, hd⟩ := hLInv.2.2 he
        constructor
        · dsimp only; rw [← hk] at *; omega
        · exact hd
    · rw [hrw]; dsimp only; rw [hLpos, ← hk]
    · rw [hrw]; dsimp only; exact hLcl
    · rw [hrw]; dsimp only; exact hLfc
    · intro heof hya
      rw [hrw]
      have h1 : ((pySlice s.loadBuffer.buffer
          (s.loadBuffer.buffer_pos + rfbSize a s.loadBuffer -
            rfbSize a s.loadBuffer)
          (s.loadBuffer.buffer_pos + rfbSize a s.loadBuffer),
         ({ s.loadBuffer with buffer_pos := s.loadBuffer.buffer_pos + rfbSize a s.loadBuffer, pos := s.loadBuffer.pos + rfbSize a s.loadBuffer } : VfsFile)).2).measN ≤ s.loadBuffer.measN := by
        exact measN_drop_le _ _ k hav rfl rfl
      have h2 := hLm heof
      omega
  · rw [if_neg hbe] at hrw
    simp only [VfsFile.isBufferEmpty, beq_iff_eq] at hbe
    obtain ⟨k, hk, hsl, hlen, hav, hkav, hkle, hk1⟩ :=
      consume_spec a s hInv.1 hInv.2.1
    refine ⟨k, ?_, ?_, ?_, ?_, ?_, ?_, ?_, hkle, ?_⟩
    · rw [hrw]; exact hsl
    · rw [hrw, hsl]; exact hlen
    · rw [hrw]; exact hav
    · rw [hrw]
      refine ⟨?_, ?_, ?_⟩
      · dsimp only; have := hInv.1; rw [← hk]; omega
      · dsimp only; rw [← hk]; omega
      · intro he
        dsimp only at he
        obtain ⟨hb, hd⟩ := hInv.2.2 he
        refine ⟨?_, hd⟩
        dsimp only
        rw [← hk] at *
        omega
    · rw [hrw]; dsimp only; rw [← hk]
    · rw [hrw]
    · rw [hrw]
    · intro heof hya
      rw [hrw]
      refine measN_drop_lt _ _ k hav rfl rfl ?_ ?_
      · refine hk1 hya ?_
        have := hInv.2.1
        omega
      · unfold VfsFile.avail
        rw [List.length_append, List.length_drop]
        have := hInv.1
        omega

theorem VfsFile.avail_eof (s : VfsFile) (hInv : s.Inv) (he : s.eof = true) :
    s.avail = [] := by
  obtain ⟨hb, hd⟩ := hInv.2.2 he
  unfold VfsFile.avail
  rw [hd]
  have : s.buffer_pos.toNat = s.buffer.length := by omega
  rw [this, List.drop_length]
  rfl

/-- Take/drop characterization of the read loop for a non-negative byte
budget `size`: starting from accumulator `acc`, the loop appends exactly
the next `size - acc.length` available bytes (or all of them if fewer),
and the final state has the corresponding suffix of `avail` left. -/
theorem VfsFile.readLoop_spec (N : Nat) :
    ∀ (size : Int) (acc : List Nat) (s : VfsFile),
    s.measN ≤ N → s.Inv → 0 ≤ size → acc.length ≤ size.toNat →
    ∃ s2, VfsFile.readLoop size acc s =
        (acc ++ s.avail.take (size.toNat - acc.length), s2) ∧
      s2.avail = s.avail.drop (size.toNat - acc.length) ∧ s2.Inv ∧
      s2.closed = s.closed ∧ s2.fetchCalls = s.fetchCalls ∧ s.pos ≤ s2.pos := by
  induction N using Nat.strong_induction_on with
  | _ N IH =>
    intro size acc s hN hInv hsz hlen
    rw [VfsFile.readLoop]
    split
    · next h =>
      obtain ⟨k, h1, h2, h3, h4, h5, h6, h7, h8, h9⟩ :=
        VfsFile.rfb_spec (size - (acc.length : Int)) s hInv
      have hacc : (acc.length : Int) < size := by
        rcases h.2 with hc | hc
        · omega
        · exact hc
      have hm := h9 h.1 (by omega)
      have hk8 : (k : Int) ≤ size - (acc.length : Int) := h8 (by omega)
      have hkav : k ≤ s.avail.length := by
        have hx := h2
        rw [h1, List.length_take] at hx
        omega
      have hk8n : k ≤ size.toNat - acc.length := by omega
      obtain ⟨s2, ih1, ih2, ih3, ih4, ih5, ih6⟩ :=
        IH ((s.readFromBuffer (size - (acc.length : Int))).2.measN)
          (by omega) size
          (acc ++ (s.readFromBuffer (size - (acc.length : Int))).1)
          (s.readFromBuffer (size - (acc.length : Int))).2
          (le_refl _) h4 hsz (by rw [List.length_append, h2]; omega)
      have hX : size.toNat -
          (acc ++ (s.readFromBuffer (size - (acc.length : Int))).1).length =
          size.toNat - acc.length - k := by
        rw [List.length_append, h2]
        omega
      refine ⟨s2, ?_, ?_, ih3, ?_, ?_, ?_⟩
      · rw [ih1, hX, h1, h3, List.append_assoc]
        congr 1
        rw [← List.take_add]
        have he : k + (size.toNat - acc.length - k) = size.toNat - acc.length := by
          omega
        rw [he]
      · rw [ih2, hX, h3, List.drop_drop]
        have he : k + (size.toNat - acc.length - k) = size.toNat - acc.length := by
          omega
        rw [he]
      · rw [ih4, h6]
      · rw [ih5, h7]
      · have hp : s.pos ≤ (s.readFromBuffer (size - (acc.length : Int))).2.pos := by
          rw [h5]; omega
        exact le_trans hp ih6
    · next h =>
      rcases Decidable.not_and_iff_or_not.mp h with he | hstop
      · have he2 : s.eof = true := by
          cases hb : s.eof
          · exact absurd hb he
          · rfl
        rw [VfsFile.avail_eof s hInv he2]
        refine ⟨s, ?_, ?_, hInv, rfl, rfl, le_refl _⟩
        · simp
        · rw [List.drop_nil]
          exact VfsFile.avail_eof s hInv he2
      · have hstop2 : size.toNat ≤ acc.length := by
          rcases not_or.mp hstop with ⟨hs1, hs2⟩
          omega
        have hz : size.toNat - acc.length = 0 := by omega
        rw [hz]
        refine ⟨s, by simp, by simp, hInv, rfl, rfl, le_refl _⟩

/-- The read loop preserves the invariant, the closed flag and the fetch
counter, and never moves the position backwards, for every byte budget. -/
theorem VfsFile.readLoop_inv (N : Nat) :
    ∀ (size : Int) (acc : List Nat) (s : VfsFile), s.measN ≤ N → s.Inv →
    (VfsFile.readLoop size acc s).2.Inv ∧
      (VfsFile.readLoop size acc s).2.closed = s.closed ∧
      (VfsFile.readLoop size acc s).2.fetchCalls = s.fetchCalls ∧
      s.pos ≤ (VfsFile.readLoop size acc s).2.pos := by
  induction N using Nat.strong_induction_on with
  | _ N IH =>
    intro size acc s hN hInv
    rw [VfsFile.readLoop]
    split
    · next h =>
      obtain ⟨k, h1, h2, h3, h4, h5, h6, h7, h8, h9⟩ :=
        VfsFile.rfb_spec (size - (acc.length : Int)) s hInv
      have hm := h9 h.1 (by omega)
      obtain ⟨ih1, ih2, ih3, ih4⟩ :=
        IH ((s.readFromBuffer (size - (acc.length : Int))).2.measN)
          (by omega) size
          (acc ++ (s.readFromBuffer (size - (acc.length : Int))).1)
          (s.readFromBuffer (size - (acc.length : Int))).2
          (le_refl _) h4
      refine ⟨ih1, ?_, ?_, ?_⟩
      · rw [ih2, h6]
      · rw [ih3, h7]
      · have hp : s.pos ≤ (s.readFromBuffer (size - (acc.length : Int))).2.pos := by
          rw [h5]; omega
        exact le_trans hp ih4
    · next h =>
      exact ⟨hInv, rfl, rfl, le_refl _⟩

/-! Helpers for naming the components of operation results in concrete
evaluations, and basic facts about freshly opened streams. -/

def bytesOf (r : Except VfsErr (List Nat × VfsFile)) : List Nat :=
  match r with
  | .ok p => p.1
  | .error _ => []

def stateOf (r : Except VfsErr (List Nat × VfsFile)) : VfsFile :=
  match r with
  | .ok p => p.2
  | .error _ => VfsFile.init fun _ => []

def seekStateOf (r : Except VfsErr (Int × VfsFile)) : VfsFile :=
  match r with
  | .ok p => p.2
  | .error _ => VfsFile.init fun _ => []

theorem init_Inv (f : Int → List (List Nat)) : (VfsFile.init f).Inv := by
  refine ⟨le_refl 0, by simp [VfsFile.init], ?_⟩
  intro h
  simp [VfsFile.init] at h

theorem init_avail (f : Int → List (List Nat)) :
    (VfsFile.init f).avail = (f 0).flatten := by
  simp [VfsFile.avail, VfsFile.init]

/-- Claim C1, counterexample: after `close()`, `tell()` does not return the
last valid position; it fails with the closed-stream error, because `tell`
calls `_ensure_not_closed` first (vfs.py line 116). -/
theorem close_tell_cex :
    VfsFile.tell (VfsFile.close (VfsFile.init (fun _ => []))) =
        .error .closed ∧
      VfsFile.tell (VfsFile.close (VfsFile.init (fun _ => []))) ≠ .ok 0 := by
  exact ⟨rfl, by decide⟩

/-- Claim C1 (corrected): after `close()` every subsequent `read`, `readChunk`
and `seek` fails with the closed-stream error, and so does `tell`; repeated
`close` succeeds and is the identity, and the recorded position is kept in
the state, for every prior stream state. -/
theorem close_semantics (s : VfsFile) (f : Int → List (List Nat))
    (n off w : Int) :
    (s.close).closed = true ∧
    VfsFile.read n s.close = .error .closed ∧
    VfsFile.read1 n s.close = .error .closed ∧
    VfsFile.seek f off w s.close = .error .closed ∧
    (s.close).tell = .error .closed ∧
    (s.close).close = s.close ∧
    (s.close).pos = s.pos := by
  refine ⟨rfl, ?_, ?_, ?_, ?_, rfl, rfl⟩ <;>
    simp [VfsFile.close, VfsFile.read, VfsFile.read1, VfsFile.seek,
      VfsFile.tell]

/-- Claim C7, counterexample: `open` is not fetch-free; `__init__` invokes
the fetch callback once (`self._data = fetch(0)`, vfs.py line 37). -/
theorem init_fetch_cex :
    (VfsFile.init (fun _ => [])).fetchCalls = 1 ∧
      (VfsFile.init (fun _ => [])).fetchCalls ≠ 0 := by
  exact ⟨rfl, by decide⟩

/-- Claim C7 (corrected): opening initializes `position = 0`, an empty
buffer, and not-closed; it invokes the fetch callback exactly once (at
offset 0) to create the source, but pulls no chunk from any source; and no
chunk is pulled by `tell`, `close` or `seek` before the first read. -/
theorem init_lazy (f : Int → List (List Nat)) (s : VfsFile) (off w : Int)
    (r : Int × VfsFile) (hr : VfsFile.seek f off w s = .ok r) :
    (VfsFile.init f).pos = 0 ∧ (VfsFile.init f).buffer = [] ∧
    (VfsFile.init f).buffer_pos = 0 ∧ (VfsFile.init f).closed = false ∧
    (VfsFile.init f).eof = false ∧ (VfsFile.init f).data = f 0 ∧
    (VfsFile.init f).pulls = 0 ∧ (VfsFile.init f).fetchCalls = 1 ∧
    (VfsFile.close s).pulls = s.pulls ∧ r.2.pulls = s.pulls := by
  refine ⟨rfl, rfl, rfl, rfl, rfl, rfl, rfl, rfl, rfl, ?_⟩
  unfold VfsFile.seek at hr
  dsimp only at hr
  repeat' split at hr
  all_goals first
    | (exact Except.noConfusion hr)
    | (injection hr with h2; subst h2; rfl)

/-- Claim C7, witness: at a concrete stream and a concrete successful seek,
the pull counter of the seek result equals that of the starting state. -/
theorem init_lazy_witness :
    (VfsFile.seek (fun _ => []) 0 0 (VfsFile.init (fun _ => [])) =
        .ok (0, VfsFile.init (fun _ => []))) ∧
      ((0 : Int), VfsFile.init (fun _ => [])).2.pulls =
        (VfsFile.init (fun _ => [])).pulls := by
  refine ⟨by decide, ?_⟩
  exact (init_lazy (fun _ => []) (VfsFile.init (fun _ => [])) 0 0
    (0, VfsFile.init (fun _ => [])) (by decide)).2.2.2.2.2.2.2.2.2

/-- Claim C3 (code bug): `read(0)` does not return zero bytes.  Line 139 of
vfs.py (`size = size or -1`) remaps the falsy size `0` to `-1`, so `read(0)`
reads the whole remaining content: here a one-chunk stream of one byte gives
one byte back instead of none. -/
theorem read_zero_eval :
    (VfsFile.init (fun _ => [[97]])).read 0 =
        .ok ([97], ⟨[], [], 0, 1, true, false, 1, 2⟩) ∧
      ([97] : List Nat).length ≠ 0 := by
  refine ⟨?_, by decide⟩
  simp [VfsFile.read, VfsFile.readLoop, VfsFile.readFromBuffer,
    VfsFile.loadBuffer, VfsFile.isBufferEmpty, pySlice, pySliceIdx,
    VfsFile.init]

/-- Claim C9, counterexample: `seek(-1, fromStart)` is accepted without
error and sets `position = -1`, so position non-negativity is not an
invariant of the code. -/
theorem seek_negative_pos_cex :
    VfsFile.seek (fun _ => []) (-1) 0 (VfsFile.init (fun _ => [])) =
        .ok (-1, ⟨[], [], 0, -1, false, false, 2, 0⟩) ∧
      ¬ (0 : Int) ≤ (-1 : Int) := by
  exact ⟨by decide, by decide⟩

/-- Claim C9 (corrected): every operation accepted without error preserves
`0 ≤ bufferCursor ≤ len(buffer)` (together with the EOF coherence clause of
`Inv`); `position` never decreases under `read`/`readChunk` and is retained
by `close`/`tell`, but `seek` sets `position` to the resolved target, which
the code accepts even when negative. -/
theorem ops_preserve_invariants (s : VfsFile) (hInv : s.Inv)
    (n size off w : Int) (f : Int → List (List Nat))
    (d1 : List Nat) (s1 : VfsFile) (h1 : s.read n = .ok (d1, s1))
    (d2 : List Nat) (s2 : VfsFile) (h2 : s.read1 size = .ok (d2, s2))
    (p : Int) (s3 : VfsFile) (h3 : VfsFile.seek f off w s = .ok (p, s3)) :
    s1.Inv ∧ (0 ≤ s.pos → 0 ≤ s1.pos) ∧
    s2.Inv ∧ (0 ≤ s.pos → 0 ≤ s2.pos) ∧
    s3.Inv ∧ s3.pos = p ∧
    s.close.Inv ∧ s.close.pos = s.pos ∧
    (s.tell = .ok s.pos ∨ s.tell = .error .closed) := by
  have hread : s1.Inv ∧ (0 ≤ s.pos → 0 ≤ s1.pos) := by
    unfold VfsFile.read at h1
    split at h1
    · exact Except.noConfusion h1
    · injection h1 with h1
      have hs1 := congrArg Prod.snd h1
      dsimp only at hs1
      obtain ⟨ha, _, _, hd⟩ :=
        VfsFile.readLoop_inv s.measN (if n = 0 then -1 else n) [] s
          (le_refl _) hInv
      rw [hs1] at ha hd
      exact ⟨ha, fun h => le_trans h hd⟩
  have hread1 : s2.Inv ∧ (0 ≤ s.pos → 0 ≤ s2.pos) := by
    unfold VfsFile.read1 at h2
    split at h2
    · exact Except.noConfusion h2
    · dsimp only at h2
      obtain ⟨k, g1, g2, g3, g4, g5, g6, g7, g8, g9⟩ :=
        VfsFile.rfb_spec size s hInv
      split at h2
      · obtain ⟨k2, j1, j2, j3, j4, j5, j6, j7, j8, j9⟩ :=
          VfsFile.rfb_spec (size - ((s.readFromBuffer size).1.length : Int))
            (s.readFromBuffer size).2 g4
        injection h2 with h2
        have hs2 := congrArg Prod.snd h2
        dsimp only at hs2
        rw [hs2] at j4 j5
        refine ⟨j4, fun h => ?_⟩
        rw [j5, g5]
        omega
      · injection h2 with h2
        have hs2 := congrArg Prod.snd h2
        dsimp only at hs2
        rw [hs2] at g4 g5
        refine ⟨g4, fun h => ?_⟩
        rw [g5]
        omega
  have hseek : s3.Inv ∧ s3.pos = p := by
    obtain ⟨hb0, hb1, hb2⟩ := hInv
    unfold VfsFile.seek at h3
    dsimp only at h3
    split at h3
    · exact Except.noConfusion h3
    · split at h3
      · split at h3 <;> split at h3 <;>
          (injection h3 with h3; injection h3 with hp hs3; subst hs3;
           subst hp) <;>
          (refine ⟨⟨?_, ?_, ?_⟩, rfl⟩ <;>
            first
              | (intro he; exact absurd he (by simp))
              | (dsimp only; omega))
      · exact Except.noConfusion h3
  have hclose : s.close.Inv ∧ s.close.pos = s.pos := ⟨hInv, rfl⟩
  have htell : s.tell = .ok s.pos ∨ s.tell = .error .closed := by
    unfold VfsFile.tell
    by_cases hc : s.closed = true
    · right; rw [if_pos hc]
    · left; rw [if_neg hc]
  exact ⟨hread.1, hread.2, hread1.1, hread1.2, hseek.1, hseek.2,
    hclose.1, hclose.2, htell⟩

/-- A freshly opened stream over the empty source. -/
def sEmpty : VfsFile := VfsFile.init (fun _ => [])

/-- The state of `sEmpty` after `read(1)` discovered the end of content. -/
def sEmptyRead : VfsFile := ⟨[], [], 0, 0, true, false, 1, 1⟩

/-- Claim C9, witness: the preservation theorem applied to a concrete
stream and concrete successful `read`, `readChunk` and `seek` calls. -/
theorem ops_preserve_invariants_witness :
    sEmptyRead.Inv ∧ (0 ≤ sEmpty.pos → 0 ≤ sEmptyRead.pos) ∧
    sEmptyRead.Inv ∧ (0 ≤ sEmpty.pos → 0 ≤ sEmptyRead.pos) ∧
    sEmpty.Inv ∧ sEmpty.pos = 0 ∧
    sEmpty.close.Inv ∧ sEmpty.close.pos = sEmpty.pos ∧
    (sEmpty.tell = .ok sEmpty.pos ∨ sEmpty.tell = .error .closed) :=
  ops_preserve_invariants sEmpty (init_Inv _) 1 1 0 0 (fun _ => [])
    [] sEmptyRead
    (by simp [sEmpty, sEmptyRead, VfsFile.read, VfsFile.readLoop,
      VfsFile.readFromBuffer, VfsFile.loadBuffer, VfsFile.isBufferEmpty,
      pySlice, pySliceIdx, VfsFile.init])
    [] sEmptyRead (by decide) 0 sEmpty (by decide)

/-- In-range seek equation (vfs.py lines 102-105 and 111): when the
resolved target lies in the inclusive window of the current buffer, only
the cursor and the position are recomputed and the EOF flag is cleared. -/
theorem seek_in_range_eq (f : Int → List (List Nat)) (s : VfsFile)
    (offset whence : Int) (hc : s.closed = false) (newPos : Int)
    (hnp : (whence = 0 ∧ newPos = offset) ∨
      (whence = 1 ∧ newPos = s.pos + offset))
    (h1 : s.pos - s.buffer_pos ≤ newPos)
    (h2 : newPos ≤ s.pos - s.buffer_pos + (s.buffer.length : Int)) :
    VfsFile.seek f offset whence s =
      .ok (newPos, { s with buffer_pos := s.buffer_pos + (newPos - s.pos), pos := newPos, eof := false }) := by
  rcases hnp with ⟨hw, hn⟩ | ⟨hw, hn⟩
  · subst hw
    subst hn
    unfold VfsFile.seek
    dsimp only
    rw [if_neg (by simp [hc]), if_pos (Or.inl rfl), if_pos rfl,
      if_pos ⟨h1, h2⟩]
  · subst hw
    subst hn
    unfold VfsFile.seek
    dsimp only
    rw [if_neg (by simp [hc]), if_pos (Or.inr rfl),
      if_neg (show ¬((1 : Int) = 0) by norm_num), if_pos ⟨h1, h2⟩]

/-- Claim C6, counterexample: an in-range seek also mutates the EOF flag
(line 111 runs in both branches), so it does not update only the cursor and
the position.  The start state is reachable: it is the state of a fresh
stream over the empty source after `read(1)`. -/
theorem seek_clears_eof_cex :
    sEmpty.read 1 = .ok ([], sEmptyRead) ∧
    sEmptyRead.eof = true ∧
    sEmptyRead.pos - sEmptyRead.buffer_pos ≤ 0 ∧
    (0 : Int) ≤ sEmptyRead.pos - sEmptyRead.buffer_pos +
      (sEmptyRead.buffer.length : Int) ∧
    VfsFile.seek (fun _ => []) 0 0 sEmptyRead =
      .ok (0, ⟨[], [], 0, 0, false, false, 1, 1⟩) ∧
    (⟨[], [], 0, 0, false, false, 1, 1⟩ : VfsFile).buffer_pos =
      sEmptyRead.buffer_pos ∧
    (⟨[], [], 0, 0, false, false, 1, 1⟩ : VfsFile).pos = sEmptyRead.pos ∧
    (⟨[], [], 0, 0, false, false, 1, 1⟩ : VfsFile).eof ≠ sEmptyRead.eof := by
  refine ⟨?_, rfl, by decide, by decide, by decide, rfl, rfl, by decide⟩
  simp [sEmpty, sEmptyRead, VfsFile.read, VfsFile.readLoop,
    VfsFile.readFromBuffer, VfsFile.loadBuffer, VfsFile.isBufferEmpty,
    pySlice, pySliceIdx, VfsFile.init]

/-- Claim C6 (corrected): a seek whose resolved target lies in the
inclusive buffer window updates the cursor and the position, clears the
EOF flag, and changes nothing else -- in particular buffer, source, and
the fetch and pull counters are untouched -- and a second in-range seek
from the resulting state again leaves the counters and the buffer as they
started, so two successive in-range seeks invoke fetchAt zero times. -/
theorem seek_in_buffer (f : Int → List (List Nat)) (s : VfsFile)
    (offset whence : Int) (hc : s.closed = false) (newPos : Int)
    (hnp : (whence = 0 ∧ newPos = offset) ∨
      (whence = 1 ∧ newPos = s.pos + offset))
    (h1 : s.pos - s.buffer_pos ≤ newPos)
    (h2 : newPos ≤ s.pos - s.buffer_pos + (s.buffer.length : Int)) :
    VfsFile.seek f offset whence s =
      .ok (newPos, { s with buffer_pos := s.buffer_pos + (newPos - s.pos), pos := newPos, eof := false }) ∧
    (∀ p2 : Int, s.pos - s.buffer_pos ≤ p2 →
      p2 ≤ s.pos - s.buffer_pos + (s.buffer.length : Int) →
      VfsFile.seek f p2 0
          { s with buffer_pos := s.buffer_pos + (newPos - s.pos), pos := newPos, eof := false } =
        .ok (p2, { s with buffer_pos := s.buffer_pos + (p2 - s.pos), pos := p2, eof := false })) := by
  refine ⟨seek_in_range_eq f s offset whence hc newPos hnp h1 h2, ?_⟩
  intro p2 hp1 hp2
  have h := seek_in_range_eq f
    { s with buffer_pos := s.buffer_pos + (newPos - s.pos), pos := newPos, eof := false }
    p2 0 hc p2 (Or.inl ⟨rfl, rfl⟩) (by dsimp only; omega)
    (by dsimp only; omega)
  rw [h]
  simp only [Except.ok.injEq, Prod.mk.injEq, VfsFile.mk.injEq, true_and,
    and_true]
  omega

/-- A reachable stream state with a part-consumed buffer: a fresh stream
over chunks `[[97, 98], [99]]` after `read(1)`. -/
def sBuf : VfsFile := ⟨[[99]], [97, 98], 1, 1, false, false, 1, 1⟩

/-- Claim C6, witness: two successive in-range seeks on a concrete stream,
with the frame equations instantiated. -/
theorem seek_in_buffer_witness :
    VfsFile.seek (fun _ => []) 0 0 sBuf =
      .ok (0, { sBuf with buffer_pos := sBuf.buffer_pos + (0 - sBuf.pos), pos := 0, eof := false }) ∧
    VfsFile.seek (fun _ => []) 2 0
        { sBuf with buffer_pos := sBuf.buffer_pos + (0 - sBuf.pos), pos := 0, eof := false } =
      .ok (2, { sBuf with buffer_pos := sBuf.buffer_pos + (2 - sBuf.pos), pos := 2, eof := false }) := by
  have h := seek_in_buffer (fun _ => []) sBuf 0 0 (by decide) 0
    (Or.inl ⟨rfl, rfl⟩) (by decide) (by decide)
  exact ⟨h.1, h.2 2 (by decide) (by decide)⟩

/-- `rfbSize` as plain arithmetic, split along the three regimes. -/
theorem rfbSize_char (a : Int) (t : VfsFile) :
    (0 ≤ a → a ≤ (t.buffer.length : Int) - t.buffer_pos → rfbSize a t = a) ∧
    (0 ≤ (t.buffer.length : Int) - t.buffer_pos →
      (t.buffer.length : Int) - t.buffer_pos ≤ a →
      rfbSize a t = (t.buffer.length : Int) - t.buffer_pos) ∧
    (a < 0 → 0 ≤ (t.buffer.length : Int) - t.buffer_pos →
      rfbSize a t = (t.buffer.length : Int) - t.buffer_pos) := by
  unfold rfbSize
  refine ⟨?_, ?_, ?_⟩ <;> intro h1 h2 <;> split <;> omega

/-- `_read_from_buffer` on a non-empty buffer performs no `next()` attempt
and touches neither buffer, source nor flags. -/
theorem rfb_noload (a : Int) (s : VfsFile) (hInv : s.Inv)
    (hbe : s.isBufferEmpty = false) :
    ∃ k : Nat, (k : Int) = rfbSize a s ∧
      (s.readFromBuffer a).1.length = k ∧
      (s.readFromBuffer a).2.pulls = s.pulls ∧
      (s.readFromBuffer a).2.eof = s.eof ∧
      (s.readFromBuffer a).2.buffer = s.buffer ∧
      (s.readFromBuffer a).2.data = s.data ∧
      (s.readFromBuffer a).2.buffer_pos = s.buffer_pos + rfbSize a s ∧
      (s.readFromBuffer a).2.closed = s.closed := by
  have hrw := rfb_unfold a s
  rw [if_neg (by simp [hbe])] at hrw
  obtain ⟨k, hk, hsl, hlen, _, _, _, _⟩ := consume_spec a s hInv.1 hInv.2.1
  refine ⟨k, hk, ?_, by rw [hrw], by rw [hrw], by rw [hrw], by rw [hrw],
    by rw [hrw], by rw [hrw]⟩
  rw [hrw]
  dsimp only
  rw [hsl]
  exact hlen

/-- `_read_from_buffer` on an empty buffer with EOF not yet reached makes
exactly one `next()` attempt. -/
theorem rfb_load_pulls (a : Int) (t : VfsFile) (hbe : t.isBufferEmpty = true)
    (heof : t.eof = false) :
    (t.readFromBuffer a).2.pulls = t.pulls + 1 := by
  have hrw := rfb_unfold a t
  rw [if_pos hbe] at hrw
  rw [hrw]
  dsimp only
  unfold VfsFile.loadBuffer
  rw [if_neg (by simp [heof])]
  cases t.data <;> rfl

/-- `_read_from_buffer` on an empty buffer with EOF already reached makes
no `next()` attempt. -/
theorem rfb_eof_pulls (a : Int) (t : VfsFile) (hbe : t.isBufferEmpty = true)
    (heof : t.eof = true) :
    (t.readFromBuffer a).2.pulls = t.pulls := by
  have hrw := rfb_unfold a t
  rw [if_pos hbe] at hrw
  rw [hrw]
  dsimp only
  unfold VfsFile.loadBuffer
  rw [if_pos heof]

/-- Claim C8 (corrected): each `readChunk(n)` call makes at most one chunk
pull.  If the buffer is non-empty at call start, a pull happens exactly
when the buffered bytes cannot satisfy the request (`n < 0`, or fewer than
`n` bytes available); if the buffer is empty at call start, exactly one
pull happens unless the source end had already been reached, in which case
none happens and the result is empty.  The result is capped at `n` bytes
when `n ≥ 0`. -/
theorem read1_refill (s : VfsFile) (hInv : s.Inv) (hc : s.closed = false)
    (n : Int) (d : List Nat) (s2 : VfsFile) (h : s.read1 n = .ok (d, s2)) :
    s2.pulls ≤ s.pulls + 1 ∧
    (s.isBufferEmpty = false → 0 ≤ n →
      n ≤ (s.buffer.length : Int) - s.buffer_pos → s2.pulls = s.pulls) ∧
    (s.isBufferEmpty = false →
      (n < 0 ∨ (s.buffer.length : Int) - s.buffer_pos < n) →
      s2.pulls = s.pulls + 1) ∧
    (s.isBufferEmpty = true → s.eof = false → s2.pulls = s.pulls + 1) ∧
    (s.isBufferEmpty = true → s.eof = true → s2.pulls = s.pulls ∧ d = []) ∧
    (0 ≤ n → (d.length : Int) ≤ n) := by
  obtain ⟨ks, g1, g2, g3, g4, g5, g6, g7, g8, g9⟩ := VfsFile.rfb_spec n s hInv
  have hav0 : 0 ≤ (s.buffer.length : Int) - s.buffer_pos := by
    have := hInv.2.1
    omega
  unfold VfsFile.read1 at h
  rw [if_neg (by simp [hc])] at h
  dsimp only at h
  split at h
  · next hcase =>
    obtain ⟨hbe, hror⟩ := hcase
    injection h with h
    rw [Prod.mk.injEq] at h
    obtain ⟨hd, hs2⟩ := h
    obtain ⟨k1, hk1, hlen1, hp1, he1, hb1, hdat1, hbp1, hcl1⟩ :=
      rfb_noload n s hInv hbe
    have hkk : ks = k1 := by rw [← g2, hlen1]
    subst hkk
    have hk1av : (ks : Int) = (s.buffer.length : Int) - s.buffer_pos := by
      rcases hror with hn | hlt
      · rw [hk1, (rfbSize_char n s).2.2 hn hav0]
      · rw [hlen1] at hlt
        have hn0 : 0 ≤ n := by omega
        rcases le_or_lt ((s.buffer.length : Int) - s.buffer_pos) n with
          hc2 | hc2
        · rw [hk1, (rfbSize_char n s).2.1 hav0 hc2]
        · exfalso
          rw [hk1, (rfbSize_char n s).1 hn0 (by omega)] at hlt
          omega
    have hbe2 : (s.readFromBuffer n).2.isBufferEmpty = true := by
      simp only [VfsFile.isBufferEmpty, hbp1, hb1, beq_iff_eq]
      rw [← hk1]
      omega
    have heof2 : (s.readFromBuffer n).2.eof = false := by
      rw [he1]
      cases hse : s.eof
      · rfl
      · exfalso
        obtain ⟨hb, _⟩ := hInv.2.2 hse
        simp [VfsFile.isBufferEmpty, hb] at hbe
    have hp2 := rfb_load_pulls (n - ((s.readFromBuffer n).1.length : Int))
      (s.readFromBuffer n).2 hbe2 heof2
    have hs2p : s2.pulls = s.pulls + 1 := by
      rw [← hs2, hp2, hp1]
    obtain ⟨k2, j1, j2, j3, j4, j5, j6, j7, j8, j9⟩ :=
      VfsFile.rfb_spec (n - ((s.readFromBuffer n).1.length : Int))
        (s.readFromBuffer n).2 g4
    refine ⟨by omega, ?_, fun _ _ => hs2p, ?_, ?_, ?_⟩
    · intro _ hn0 hnav
      exfalso
      rcases hror with hn | hlt
      · omega
      · rw [hlen1] at hlt
        omega
    · intro hbet
      rw [hbet] at hbe
      exact absurd hbe (by simp)
    · intro hbet
      rw [hbet] at hbe
      exact absurd hbe (by simp)
    · intro hn0
      have hk1n : (ks : Int) ≤ n := g8 hn0
      rw [g2] at j2 j8
      have hk2n := j8 (by omega)
      rw [← hd, List.length_append, g2, j2]
      push_cast
      omega
  · next hcase =>
    injection h with h
    rw [Prod.mk.injEq] at h
    obtain ⟨hd, hs2⟩ := h
    have hdlen : d.length = ks := by rw [← hd, g2]
    refine ⟨?_, ?_, ?_, ?_, ?_, ?_⟩
    · cases hbe : s.isBufferEmpty
      · obtain ⟨k1, hk1, hlen1, hp1, _, _, _, _, _⟩ :=
          rfb_noload n s hInv hbe
        rw [← hs2, hp1]
        omega
      · cases heo : s.eof
        · rw [← hs2, rfb_load_pulls n s hbe heo]
        · rw [← hs2, rfb_eof_pulls n s hbe heo]
          omega
    · intro hbe _ _
      obtain ⟨k1, hk1, hlen1, hp1, _, _, _, _, _⟩ := rfb_noload n s hInv hbe
      rw [← hs2, hp1]
    · intro hbe hror
      exfalso
      have hnand : ¬(s.isBufferEmpty = false ∧
          (n < 0 ∨ ((s.readFromBuffer n).1.length : Int) < n)) := hcase
      obtain ⟨k1, hk1, hlen1, _, _, _, _, _, _⟩ := rfb_noload n s hInv hbe
      have hkk : ks = k1 := by rw [← g2, hlen1]
      rcases hror with hn | hltav
      · exact hnand ⟨hbe, Or.inl hn⟩
      · have hk1n : (k1 : Int) =
            (s.buffer.length : Int) - s.buffer_pos := by
          rw [hk1, (rfbSize_char n s).2.1 hav0 (le_of_lt hltav)]
        have hlt2 : ((s.readFromBuffer n).1.length : Int) < n := by
          rw [g2, hkk]
          omega
        exact hnand ⟨hbe, Or.inr hlt2⟩
    · intro hbe heof
      rw [← hs2, rfb_load_pulls n s hbe heof]
    · intro hbe heof
      refine ⟨by rw [← hs2, rfb_eof_pulls n s hbe heof], ?_⟩
      rw [← hd, g1, VfsFile.avail_eof s hInv heof, List.take_nil]
    · intro hn0
      rw [← hd, g2]
      exact g8 hn0

/-- Claim C8, counterexample: on a buffer that still holds one byte but is
asked for two, `read1` consumes the buffer and then pulls one more chunk in
the same call (lines 149-150 of vfs.py), so a non-empty buffer at call
start does not imply fetch-free operation.  The start state is reachable:
it is a fresh stream over `[[97, 98], [99]]` after `read(1)`. -/
theorem read1_refill_cex :
    (VfsFile.init (fun _ => [[97, 98], [99]])).read 1 = .ok ([97], sBuf) ∧
    sBuf.isBufferEmpty = false ∧
    sBuf.read1 2 = .ok ([98, 99], ⟨[], [99], 1, 3, false, false, 1, 2⟩) ∧
    (⟨[], [99], 1, 3, false, false, 1, 2⟩ : VfsFile).pulls = sBuf.pulls + 1 ∧
    sBuf.pulls + 1 ≠ sBuf.pulls := by
  refine ⟨?_, rfl, by decide, rfl, by decide⟩
  simp [VfsFile.read, VfsFile.readLoop, VfsFile.readFromBuffer,
    VfsFile.loadBuffer, VfsFile.isBufferEmpty, pySlice, pySliceIdx,
    VfsFile.init, sBuf]

/-- Claim C8, witness: the refill-counting theorem applied to the concrete
two-byte request on a one-byte buffer. -/
theorem read1_refill_witness :
    sBuf.read1 2 = .ok ([98, 99], ⟨[], [99], 1, 3, false, false, 1, 2⟩) ∧
    (⟨[], [99], 1, 3, false, false, 1, 2⟩ : VfsFile).pulls ≤ sBuf.pulls + 1 :=
  ⟨by decide,
   (read1_refill sBuf
      ⟨by decide, by decide, fun h => absurd h (by decide)⟩ (by decide) 2
      [98, 99] ⟨[], [99], 1, 3, false, false, 1, 2⟩ (by decide)).1⟩

/-- The number of bytes handed out by `read1` never exceeds a non-negative
request. -/
theorem read1_len_le (s : VfsFile) (hInv : s.Inv) (n : Int) (hn : 0 ≤ n)
    (d : List Nat) (s1 : VfsFile) (h : s.read1 n = .ok (d, s1)) :
    (d.length : Int) ≤ n := by
  obtain ⟨ks, g1, g2, g3, g4, g5, g6, g7, g8, g9⟩ := VfsFile.rfb_spec n s hInv
  unfold VfsFile.read1 at h
  split at h
  · exact Except.noConfusion h
  · dsimp only at h
    split at h
    · injection h with h
      rw [Prod.mk.injEq] at h
      obtain ⟨hd, _⟩ := h
      obtain ⟨k2, j1, j2, j3, j4, j5, j6, j7, j8, j9⟩ :=
        VfsFile.rfb_spec (n - ((s.readFromBuffer n).1.length : Int))
          (s.readFromBuffer n).2 g4
      rw [g2] at j2 j8
      have hk1 := g8 hn
      have hk2 := j8 (by omega)
      rw [← hd, List.length_append, g2, j2]
      push_cast
      omega
    · injection h with h
      rw [Prod.mk.injEq] at h
      obtain ⟨hd, _⟩ := h
      rw [← hd, g2]
      exact g8 hn

/-- Claim C10 (confirmed): `readinto1(b)` writes the bytes that
`readChunk(len(b))` would return into the first `k` positions of `b`,
returns that count `k`, and leaves the elements at indices `k` and beyond
unchanged; the result keeps the length of `b`. -/
theorem readinto1_frame (s : VfsFile) (hInv : s.Inv) (hc : s.closed = false)
    (b d : List Nat) (s1 : VfsFile)
    (h : s.read1 (b.length : Int) = .ok (d, s1)) :
    s.readinto1 b = .ok (d.length, d ++ b.drop d.length, s1) ∧
    d.length ≤ b.length ∧
    (d ++ b.drop d.length).take d.length = d ∧
    (d ++ b.drop d.length).drop d.length = b.drop d.length ∧
    (d ++ b.drop d.length).length = b.length := by
  have hcap : (d.length : Int) ≤ (b.length : Int) :=
    read1_len_le s hInv (b.length : Int) (by omega) d s1 h
  refine ⟨?_, by omega, ?_, ?_, ?_⟩
  · unfold VfsFile.readinto1
    rw [if_neg (by simp [hc]), h]
  · exact List.take_left d (b.drop d.length)
  · exact List.drop_left d (b.drop d.length)
  · rw [List.length_append, List.length_drop]
    omega

/-- Claim C10, witness: `readinto1` on a concrete two-byte buffer writes
the two bytes that `readChunk(2)` returns into positions 0 and 1, returns
the count 2, and the elements from index 2 on (none) are unchanged. -/
theorem readinto1_frame_witness :
    sBuf.readinto1 [7, 8] =
      .ok (2, [98, 99], ⟨[], [99], 1, 3, false, false, 1, 2⟩) ∧
    ([98, 99] ++ ([7, 8] : List Nat).drop 2).drop 2 =
      ([7, 8] : List Nat).drop 2 := by
  have h := readinto1_frame sBuf
    ⟨by decide, by decide, fun h => absurd h (by decide)⟩ (by decide)
    [7, 8] [98, 99] ⟨[], [99], 1, 3, false, false, 1, 2⟩ (by decide)
  exact ⟨h.1, h.2.2.2.1⟩

/-- Claim C4, counterexample: with content `[97, 98]`, `read(0)` followed by
`read(1)` yields `[97, 98]` in total (because `read(0)` is remapped to
read-to-end by line 139), while a single `read(0 + 1)` on a fresh stream
yields `[97]`; the split property fails at the split point `(0, 1)`. -/
theorem read_split_cex :
    bytesOf ((VfsFile.init (fun _ => [[97, 98]])).read 0) ++
        bytesOf ((stateOf ((VfsFile.init (fun _ => [[97, 98]])).read 0)).read 1) =
      [97, 98] ∧
    bytesOf ((VfsFile.init (fun _ => [[97, 98]])).read (0 + 1)) = [97] ∧
    ([97, 98] : List Nat) ≠ [97] := by
  refine ⟨?_, ?_, by decide⟩ <;>
    simp [bytesOf, stateOf, VfsFile.read, VfsFile.readLoop,
      VfsFile.readFromBuffer, VfsFile.loadBuffer, VfsFile.isBufferEmpty,
      pySlice, pySliceIdx, VfsFile.init]

/-- Claim C4 (corrected): for every source content and every positive split
point (n, m), `read(n)` then `read(m)` on a freshly opened stream yields,
concatenated, the same bytes in the same order as a single `read(n + m)`
call on a freshly opened stream over the same content. -/
theorem read_split (f : Int → List (List Nat)) (n m : Int)
    (hn : 1 ≤ n) (hm : 1 ≤ m) :
    ∃ d1 s1 d2 s2 s3,
      (VfsFile.init f).read n = .ok (d1, s1) ∧
      s1.read m = .ok (d2, s2) ∧
      (VfsFile.init f).read (n + m) = .ok (d1 ++ d2, s3) := by
  have hInv := init_Inv f
  have hav := init_avail f
  obtain ⟨s1, e1, a1, i1, c1, fc1, p1⟩ :=
    VfsFile.readLoop_spec (VfsFile.init f).measN n [] (VfsFile.init f)
      (le_refl _) hInv (by omega) (by simp)
  rw [hav] at e1 a1
  obtain ⟨s2, e2, a2, i2, c2, fc2, p2⟩ :=
    VfsFile.readLoop_spec s1.measN m [] s1 (le_refl _) i1 (by omega) (by simp)
  rw [a1] at e2 a2
  obtain ⟨s3, e3, a3, i3, c3, fc3, p3⟩ :=
    VfsFile.readLoop_spec (VfsFile.init f).measN (n + m) [] (VfsFile.init f)
      (le_refl _) hInv (by omega) (by simp)
  rw [hav] at e3 a3
  have hc1 : s1.closed = false := by rw [c1]; rfl
  refine ⟨(f 0).flatten.take n.toNat, s1,
    ((f 0).flatten.drop n.toNat).take m.toNat, s2, s3, ?_, ?_, ?_⟩
  · unfold VfsFile.read
    rw [if_neg (by simp [VfsFile.init]), if_neg (by omega)]
    dsimp only
    rw [e1]
    simp
  · unfold VfsFile.read
    rw [if_neg (by simp [hc1]), if_neg (by omega)]
    dsimp only
    rw [e2]
    simp
  · unfold VfsFile.read
    rw [if_neg (by simp [VfsFile.init]), if_neg (by omega)]
    dsimp only
    rw [e3]
    simp only [List.length_nil, Nat.sub_zero, List.nil_append]
    have hsplit : (n + m).toNat = n.toNat + m.toNat := by omega
    rw [hsplit, List.take_add]

/-- Claim C4, witness: the split property at content `[[1, 2, 3]]` and the
split point (2, 2). -/
theorem read_split_witness :
    (1 : Int) ≤ 2 ∧
    ∃ d1 s1 d2 s2 s3,
      (VfsFile.init (fun _ => [[1, 2, 3]])).read 2 = .ok (d1, s1) ∧
      s1.read 2 = .ok (d2, s2) ∧
      (VfsFile.init (fun _ => [[1, 2, 3]])).read (2 + 2) =
        .ok (d1 ++ d2, s3) :=
  ⟨by decide, read_split (fun _ => [[1, 2, 3]]) 2 2 (by decide) (by decide)⟩

/-- Inversion of the child loop: a successful loop returns the
concatenation of the per-child contributions, where a child whose
recursive call failed contributes nothing. -/
theorem lsLoop_ok_inv (f : StatEntry → Except LsErr (List StatEntry)) :
    ∀ (cs : List StatEntry) (inner : List StatEntry),
      lsLoop f cs = .ok inner →
      inner = (cs.map (fun c => (f c).toOption.getD [])).flatten := by
  intro cs
  induction cs with
  | nil =>
    intro inner h
    injection h with h
    rw [← h]
    rfl
  | cons e rest ih =>
    intro inner h
    unfold lsLoop at h
    cases hf : f e with
    | ok xs =>
      rw [hf] at h
      dsimp only at h
      cases hrest : lsLoop f rest with
      | ok ys =>
        rw [hrest] at h
        dsimp only at h
        injection h with h
        rw [← h, ih ys hrest]
        simp [hf, Except.toOption]
      | error err =>
        rw [hrest] at h
        dsimp only at h
        exact Except.noConfusion h
    | error err =>
      cases err with
      | approvalMissing =>
        rw [hf] at h
        dsimp only at h
        exact Except.noConfusion h
      | notDirectory p =>
        rw [hf] at h
        dsimp only at h
        rw [ih inner h]
        simp [hf, Except.toOption]

/-- The child loop succeeds when no child fails with the approval-missing
error: NotDirectoryError children are swallowed and contribute nothing. -/
theorem lsLoop_ok (f : StatEntry → Except LsErr (List StatEntry)) :
    ∀ cs : List StatEntry,
      (∀ c ∈ cs, f c ≠ .error .approvalMissing) →
      lsLoop f cs = .ok ((cs.map (fun c => (f c).toOption.getD [])).flatten) := by
  intro cs
  induction cs with
  | nil => intro _; rfl
  | cons e rest ih =>
    intro h
    unfold lsLoop
    cases hf : f e with
    | ok xs =>
      rw [ih (fun c hc => h c (List.mem_cons_of_mem e hc))]
      simp [hf, Except.toOption]
    | error err =>
      cases err with
      | approvalMissing => exact absurd hf (h e (List.mem_cons_self e rest))
      | notDirectory p =>
        rw [ih (fun c hc => h c (List.mem_cons_of_mem e hc))]
        simp [hf, Except.toOption]

/-- The child loop propagates the approval-missing error of the first
child that raises it, regardless of the children after it. -/
theorem lsLoop_err (f : StatEntry → Except LsErr (List StatEntry)) :
    ∀ (cs₁ : List StatEntry) (c : StatEntry) (cs₂ : List StatEntry),
      (∀ x ∈ cs₁, f x ≠ .error .approvalMissing) →
      f c = .error .approvalMissing →
      lsLoop f (cs₁ ++ c :: cs₂) = .error .approvalMissing := by
  intro cs₁
  induction cs₁ with
  | nil =>
    intro c cs₂ _ hc
    rw [List.nil_append]
    unfold lsLoop
    rw [hc]
  | cons e rest ih =>
    intro c cs₂ h1 hc
    have hretail := ih c cs₂ (fun x hx => h1 x (List.mem_cons_of_mem e hx)) hc
    rw [List.cons_append]
    unfold lsLoop
    cases hf : f e with
    | ok xs =>
      rw [hretail]
    | error err =>
      cases err with
      | approvalMissing => exact absurd hf (h1 e (List.mem_cons_self e rest))
      | notDirectory p => exact hretail

/-- One unfolding of `ls` at depth at least 1, with the recursive calls at
depth `d - 1`. -/
theorem ls_step (get : String → Except ApiErr FileEntry)
    (listF : String → Except ApiErr (List StatEntry))
    (path : String) (d : Int) (hd : 1 ≤ d) :
    ls get listF path d =
      (match get path with
       | .error .accessForbidden => .error .approvalMissing
       | .ok fe =>
         if fe.is_directory = false then .error (.notDirectory path)
         else
           match listF path with
           | .error .accessForbidden => .error .approvalMissing
           | .ok stat_entries =>
             match lsLoop (fun e₂ => ls get listF e₂.pathspecPath (d - 1))
                 stat_entries with
             | .ok inner_entries => .ok (stat_entries ++ inner_entries)
             | .error err => .error err) := by
  unfold ls
  have h2 : (d - 1).toNat = d.toNat - 1 := by omega
  rw [h2]
  generalize hg : d.toNat - 1 = k
  have hk : d.toNat = k + 1 := by omega
  rw [hk]
  rfl

/-- Claim C2 (corrected): on a successful call with depth at least 1, the
returned sequence is the immediate children in provider order, followed by
the recursively gathered subtrees of the children in the same child order
(a failed recursive call contributing nothing); siblings all come before
any descendant. -/
theorem ls_sibling_order (get : String → Except ApiErr FileEntry)
    (listF : String → Except ApiErr (List StatEntry))
    (path : String) (d : Int) (e : FileEntry) (cs res : List StatEntry)
    (hd : 1 ≤ d) (hg : get path = .ok e) (hdir : e.is_directory = true)
    (hl : listF path = .ok cs)
    (hres : ls get listF path d = .ok res) :
    res = cs ++ (cs.map (fun c =>
      (ls get listF c.pathspecPath (d - 1)).toOption.getD [])).flatten := by
  rw [ls_step get listF path d hd, hg] at hres
  dsimp only at hres
  rw [if_neg (by simp [hdir]), hl] at hres
  dsimp only at hres
  cases hls : lsLoop (fun e₂ => ls get listF e₂.pathspecPath (d - 1)) cs with
  | ok inner =>
    rw [hls] at hres
    dsimp only at hres
    injection hres with hres
    rw [← hres, lsLoop_ok_inv _ cs inner hls]
  | error err =>
    rw [hls] at hres
    dsimp only at hres
    exact Except.noConfusion hres

/-- The concrete two-level tree used against claim C2: the root has
children `/a` (a directory containing `/a/c`) and `/b` (an empty
directory). -/
def sA : StatEntry := ⟨"/a"⟩

def sB : StatEntry := ⟨"/b"⟩

def sC : StatEntry := ⟨"/a/c"⟩

def g2 : String → Except ApiErr FileEntry := fun _ => .ok ⟨true⟩

def l2 : String → Except ApiErr (List StatEntry) := fun p =>
  if p = "/" then .ok [sA, sB] else if p = "/a" then .ok [sC] else .ok []

/-- Modelled from the spec sentence of claim C2 (for comparison only): the
pre-order listing in which every child is immediately followed by its own
recursively gathered subtree, before the next sibling appears. -/
def specPreorder (get : String → Except ApiErr FileEntry)
    (listF : String → Except ApiErr (List StatEntry))
    (path : String) (d : Int) : List StatEntry :=
  match listF path with
  | .ok cs => (cs.map (fun c =>
      c :: (ls get listF c.pathspecPath (d - 1)).toOption.getD [])).flatten
  | .error _ => []

/-- Claim C2, counterexample: on the tree with children `/a` (containing
`/a/c`) and `/b`, `ls` at depth 2 returns `[/a, /b, /a/c]` -- all siblings
before any descendant -- while the claimed pre-order interleaving would be
`[/a, /a/c, /b]`; `/a` is not immediately followed by its subtree. -/
theorem ls_preorder_cex :
    ls g2 l2 "/" 2 = .ok [sA, sB, sC] ∧
    specPreorder g2 l2 "/" 2 = [sA, sC, sB] ∧
    ([sA, sB, sC] : List StatEntry) ≠ [sA, sC, sB] := by
  exact ⟨by decide, by decide, by decide⟩

/-- Claim C2, witness: the ordering theorem instantiated on the concrete
two-level tree. -/
theorem ls_sibling_order_witness :
    ls g2 l2 "/" 2 = .ok [sA, sB, sC] ∧
    ([sA, sB, sC] : List StatEntry) = [sA, sB] ++ (([sA, sB]).map (fun c =>
      (ls g2 l2 c.pathspecPath (2 - 1)).toOption.getD [])).flatten :=
  ⟨by decide,
   ls_sibling_order g2 l2 "/" 2 ⟨true⟩ [sA, sB] [sA, sB, sC]
     (by decide) (by decide) (by decide) (by decide) (by decide)⟩

/-- Claim C5 (confirmed): during `list(path, maxDepth)` a NotDirectoryError
raised by a per-child recursive call is swallowed (that child contributes
no descendants and the remaining siblings are still enumerated), while an
access-denied failure from the provider -- at the top resolution, at the
child listing, or inside any recursive call -- propagates out of the call
as the approval-missing failure, never absorbed. -/
theorem ls_error_handling (get : String → Except ApiErr FileEntry)
    (listF : String → Except ApiErr (List StatEntry))
    (path : String) (d : Int) (hd : 1 ≤ d) :
    (get path = .error .accessForbidden →
      ls get listF path d = .error .approvalMissing) ∧
    (∀ e : FileEntry, get path = .ok e → e.is_directory = true →
      (listF path = .error .accessForbidden →
        ls get listF path d = .error .approvalMissing) ∧
      (∀ cs : List StatEntry, listF path = .ok cs →
        ((∀ c ∈ cs, ls get listF c.pathspecPath (d - 1) ≠
            .error .approvalMissing) →
          ls get listF path d = .ok (cs ++ (cs.map (fun c =>
            (ls get listF c.pathspecPath (d - 1)).toOption.getD
              [])).flatten)) ∧
        (∀ (cs₁ : List StatEntry) (c : StatEntry) (cs₂ : List StatEntry),
          cs = cs₁ ++ c :: cs₂ →
          (∀ x ∈ cs₁, ls get listF x.pathspecPath (d - 1) ≠
            .error .approvalMissing) →
          ls get listF c.pathspecPath (d - 1) = .error .approvalMissing →
          ls get listF path d = .error .approvalMissing))) := by
  constructor
  · intro hg
    rw [ls_step get listF path d hd, hg]
  · intro e hg hdir
    constructor
    · intro hl
      rw [ls_step get listF path d hd, hg]
      dsimp only
      rw [if_neg (by simp [hdir]), hl]
    · intro cs hl
      constructor
      · intro hnone
        rw [ls_step get listF path d hd, hg]
        dsimp only
        rw [if_neg (by simp [hdir]), hl]
        dsimp only
        rw [lsLoop_ok _ cs hnone]
      · intro cs₁ c cs₂ hsplit h1 hc
        rw [ls_step get listF path d hd, hg]
        dsimp only
        rw [if_neg (by simp [hdir]), hl]
        dsimp only
        rw [hsplit, lsLoop_err _ cs₁ c cs₂ h1 hc]

/-- The concrete tree used as witness for claim C5: the root has children
`/a` (a plain file, whose recursive listing fails with NotDirectoryError
and is swallowed) and `/d` (a directory whose child listing is denied). -/
def sD : StatEntry := ⟨"/d"⟩

def g5 : String → Except ApiErr FileEntry := fun p =>
  if p = "/a" then .ok ⟨false⟩ else .ok ⟨true⟩

def l5 : String → Except ApiErr (List StatEntry) := fun p =>
  if p = "/d" then .error .accessForbidden
  else if p = "/" then .ok [sA, sD] else .ok []

/-- Claim C5, witness: on the concrete tree, the plain-file child `/a` is
tolerated (its recursive call fails with NotDirectoryError, not
approval-missing), and the denied listing under `/d` makes the whole
depth-2 walk fail with the approval-missing error. -/
theorem ls_error_handling_witness :
    ls g5 l5 "/a" 1 = .error (.notDirectory "/a") ∧
    ls g5 l5 "/d" 1 = .error .approvalMissing ∧
    ls g5 l5 "/" 2 = .error .approvalMissing := by
  refine ⟨by decide, by decide, ?_⟩
  exact (((ls_error_handling g5 l5 "/" 2 (by decide)).2 ⟨true⟩ (by decide)
    (by decide)).2 [sA, sD] (by decide)).2 [sA] sD [] (by decide)
    (by decide) (by decide)
